import Mathlib

/-!
Verification of the polyglot-helloworld manifest compiler (scaffold) and
batch executor (run_all.sh) against their natural-language specification.

The compiler source is embedded shallowly: C++ byte strings become
`List Char` (one `Char` per byte), the filesystem becomes an explicit
state record mapping paths (component lists) to optional file contents
plus a directory predicate, and each helper function of the source is
translated one to one.
-/

namespace Scaffold

/-- Byte strings of the C++ source are modelled as lists of characters,
one character per byte. -/
abbrev Str := List Char

/-- The backslash character. -/
def backslashC : Char := Char.ofNat 92

/-- The double-quote character. -/
def dquoteC : Char := Char.ofNat 34

/-- The single-quote (apostrophe) character. -/
def squoteC : Char := Char.ofNat 39

/-- The forward-slash character. -/
def slashC : Char := '/'

/-- The newline character. -/
def nlC : Char := Char.ofNat 10

/-- The carriage-return character. -/
def crC : Char := Char.ofNat 13

/-- The horizontal-tab character. -/
def tabC : Char := Char.ofNat 9

/-- C locale `isspace` on an unsigned char: space, TAB, LF, VT, FF, CR. -/
def is_space_byte (c : Char) : Bool :=
  c.toNat == 32 || (decide (9 ≤ c.toNat) && decide (c.toNat ≤ 13))

/-- C locale `tolower` on a byte. -/
def lower_char (c : Char) : Char :=
  if 65 ≤ c.toNat ∧ c.toNat ≤ 90 then Char.ofNat (c.toNat + 32) else c

/-- `lower` from the source: byte-wise `tolower`. -/
def lower (s : Str) : Str := s.map lower_char

/-- `trim` from the source: drop leading and trailing `isspace` bytes. -/
def trim (s : Str) : Str :=
  ((s.dropWhile is_space_byte).reverse.dropWhile is_space_byte).reverse

/-- Accumulator variant of `split_tabs`; `cur` holds the current field
reversed. -/
def split_tabs_aux (cur : Str) : Str → List Str
  | [] => [cur.reverse]
  | c :: rest =>
      if c = tabC then cur.reverse :: split_tabs_aux [] rest
      else split_tabs_aux (c :: cur) rest

/-- `split_tabs` from the source: split a line on TAB characters; the
final field is always emitted, so the result is never empty. -/
def split_tabs (s : Str) : List Str := split_tabs_aux [] s

/-- `unescape` from the current source (part_003): rewrites the escape
pairs backslash-n/t/r/backslash/double-quote/single-quote; an
unrecognized pair keeps the backslash and re-examines the next byte. -/
def unescape : Str → Str
  | [] => []
  | [c] => [c]
  | c :: n :: rest =>
      if c = backslashC then
        if n = 'n' then nlC :: unescape rest
        else if n = 't' then tabC :: unescape rest
        else if n = 'r' then crC :: unescape rest
        else if n = backslashC then backslashC :: unescape rest
        else if n = dquoteC then dquoteC :: unescape rest
        else if n = squoteC then squoteC :: unescape rest
        else c :: unescape (n :: rest)
      else c :: unescape (n :: rest)

/-- The replacement byte for a recognized escape introducer, following the
wording of the specification: `\n`→newline, `\t`→tab, `\r`→carriage
return, `\\`→backslash, `\"`→double quote, backslash-apostrophe→apostrophe. -/
def esc_code (n : Char) : Option Char :=
  if n = 'n' then some nlC
  else if n = 't' then some tabC
  else if n = 'r' then some crC
  else if n = backslashC then some backslashC
  else if n = dquoteC then some dquoteC
  else if n = squoteC then some squoteC
  else none

/-- Field unescaping written from the specification text: scanning left to
right, each recognized two-byte escape is replaced by its byte, and a
backslash followed by any other character is left in place as the literal
backslash plus that character. -/
def spec_unescape : Str → Str
  | [] => []
  | [c] => [c]
  | b :: n :: rest =>
      if b = backslashC then
        match esc_code n with
        | some r => r :: spec_unescape rest
        | none => b :: n :: spec_unescape rest
      else b :: spec_unescape (n :: rest)

/-- `strip_utf8_bom` from the source: drop a leading EF BB BF byte
sequence. -/
def strip_utf8_bom (s : Str) : Str :=
  match s with
  | a :: b :: c :: rest =>
      if a.toNat == 0xEF && b.toNat == 0xBB && c.toNat == 0xBF then rest
      else a :: b :: c :: rest
  | s => s

/-- `ends_with_nl` from the source. -/
def ends_with_nl (s : Str) : Bool := s.getLast? == some nlC

/-- Upper-case hexadecimal digit for a value below 16 (out-of-range values
fall back to the digit zero, matching `List.getD`). -/
def hex_digit_upper (n : Nat) : Char := "0123456789ABCDEF".data.getD n '0'

/-- Value of a hexadecimal digit, accepting both cases. -/
def hex_val (c : Char) : Option Nat :=
  if 48 ≤ c.toNat ∧ c.toNat ≤ 57 then some (c.toNat - 48)
  else if 65 ≤ c.toNat ∧ c.toNat ≤ 70 then some (c.toNat - 55)
  else if 97 ≤ c.toNat ∧ c.toNat ≤ 102 then some (c.toNat - 87)
  else none

/-- Escape of one byte inside the generated exec-form CMD string, from
`json_escape` in the source: the five special bytes get two-character
escapes, remaining control bytes below 0x20 get an upper-case
backslash-u00XX escape, anything else passes through. -/
def json_escape_char (c : Char) : Str :=
  if c = backslashC then [backslashC, backslashC]
  else if c = dquoteC then [backslashC, dquoteC]
  else if c = nlC then [backslashC, 'n']
  else if c = crC then [backslashC, 'r']
  else if c = tabC then [backslashC, 't']
  else if c.toNat < 0x20 then
    [backslashC, 'u', '0', '0', hex_digit_upper (c.toNat / 16),
     hex_digit_upper (c.toNat % 16)]
  else [c]

/-- `json_escape` from the source: per-byte escaping, concatenated. -/
def json_escape : Str → Str
  | [] => []
  | c :: rest => json_escape_char c ++ json_escape rest

/-- Standard JSON string-body unescaping, used to state the round-trip
property: rejects a dangling backslash, an unknown escape, a raw double
quote, and raw control bytes; accepts the standard two-character escapes
and backslash-u followed by four hexadecimal digits. -/
def json_unescape (l : Str) : Option Str :=
  match l with
  | [] => some []
  | c :: rest =>
      if c = backslashC then
        match rest with
        | [] => none
        | e :: rest2 =>
            if e = dquoteC then (json_unescape rest2).map (fun t => dquoteC :: t)
            else if e = backslashC then (json_unescape rest2).map (fun t => backslashC :: t)
            else if e = slashC then (json_unescape rest2).map (fun t => slashC :: t)
            else if e = 'b' then (json_unescape rest2).map (fun t => Char.ofNat 8 :: t)
            else if e = 'f' then (json_unescape rest2).map (fun t => Char.ofNat 12 :: t)
            else if e = 'n' then (json_unescape rest2).map (fun t => nlC :: t)
            else if e = 'r' then (json_unescape rest2).map (fun t => crC :: t)
            else if e = 't' then (json_unescape rest2).map (fun t => tabC :: t)
            else if e = 'u' then
              match rest2 with
              | h1 :: h2 :: h3 :: h4 :: rest3 =>
                  match hex_val h1, hex_val h2, hex_val h3, hex_val h4 with
                  | some a, some b, some c2, some d =>
                      (json_unescape rest3).map
                        (fun t => Char.ofNat (((a * 16 + b) * 16 + c2) * 16 + d) :: t)
                  | _, _, _, _ => none
              | _ => none
            else none
      else if c = dquoteC then none
      else if c.toNat < 0x20 then none
      else (json_unescape rest).map (fun t => c :: t)
termination_by l.length
decreasing_by all_goals simp only [List.length_cons]; omega

/-- `looks_like_header` from the source: the first field of the line,
trimmed and lower-cased, equals the literal column name slug. -/
def looks_like_header (cols : List Str) : Bool :=
  match cols with
  | [] => false
  | c0 :: _ => lower (trim c0) == "slug".data

/-- `ends_with` from the source. -/
def ends_with (s suf : Str) : Bool := List.isSuffixOf suf s

/-- `file_ext` from the source: the substring from the final dot onward
(dot included), or empty when the string has no dot. -/
def file_ext (s : Str) : Str :=
  if s.contains '.' then
    '.' :: (s.reverse.takeWhile (fun c => !(c == '.'))).reverse
  else []

/-- Trailing punctuation recognized by `strip_trailing_punct`. -/
def is_trailing_punct (c : Char) : Bool :=
  c == ';' || c == ',' || c == ')' || c == ']' || c == crC || c == nlC

/-- `strip_trailing_punct` from the source. -/
def strip_trailing_punct (t : Str) : Str :=
  (t.reverse.dropWhile is_trailing_punct).reverse

/-- Accumulator variant of `shellish_split`; `cur` holds the current token
reversed. -/
def shellish_split_aux (in_single in_double : Bool) (cur : Str) : Str → List Str
  | [] => if cur.isEmpty then [] else [cur.reverse]
  | c :: rest =>
      if c == squoteC && !in_double then
        shellish_split_aux (!in_single) in_double cur rest
      else if c == dquoteC && !in_single then
        shellish_split_aux in_single (!in_double) cur rest
      else if !in_single && !in_double && is_space_byte c then
        if cur.isEmpty then shellish_split_aux in_single in_double [] rest
        else cur.reverse :: shellish_split_aux in_single in_double [] rest
      else shellish_split_aux in_single in_double (c :: cur) rest

/-- `shellish_split` from the source: whitespace tokenizer respecting
simple single and double quotes. -/
def shellish_split (s : Str) : List Str := shellish_split_aux false false [] s

/-- Trailing path component: the bytes after the last slash (the whole
string when it has no slash), as `std::filesystem::path::filename`
behaves on the relative paths this program handles. -/
def path_leaf (s : Str) : Str :=
  (s.reverse.takeWhile (fun c => !(c == slashC))).reverse

/-- `normalize_filename` from the source: take the trailing path
component, then strip a leading dot-slash if one remained. -/
def normalize_filename (tok : Str) : Str :=
  let leaf := path_leaf tok
  if "./".data.isPrefixOf leaf then leaf.drop 2 else leaf

/-- `find_last_file_ref` from the source: among the shell-ish tokens of
`cmd`, each stripped of trailing punctuation and reduced to its trailing
path component, the last one ending in `ext`; empty when `cmd` or `ext`
is empty or nothing matches. -/
def find_last_file_ref (cmd ext : Str) : Str :=
  if cmd.isEmpty || ext.isEmpty then []
  else
    (shellish_split cmd).foldl
      (fun last tok =>
        let t := normalize_filename (strip_trailing_punct tok)
        if ends_with t ext then t else last)
      []

/-- The effective-filename computation of `process_line` (lines 419-427 of
the current source): start from the normalized `file` field, then let the
last extension-matching reference in `build_cmd`, else in `run_command`,
override it. -/
def effective_file_of (file build_cmd run_command : Str) : Str :=
  let eff := normalize_filename file
  let ext := file_ext eff
  let build_ref := normalize_filename (find_last_file_ref build_cmd ext)
  let run_ref := normalize_filename (find_last_file_ref run_command ext)
  if build_ref ≠ [] then build_ref
  else if run_ref ≠ [] then run_ref
  else eff

/-- The candidate tokens of one command, written from the claim text:
whitespace-split respecting quotes, trailing punctuation stripped, reduced
to trailing path components, and kept when ending with `ext`. -/
def spec_file_candidates (cmd ext : Str) : List Str :=
  ((shellish_split cmd).map
      (fun tok => normalize_filename (strip_trailing_punct tok))).filter
    (fun t => ends_with t ext)

/-- Filename resolution written from the claim text: take the trailing
path component of the `file` field and its extension (final dot onward);
when the name has an extension, the last matching candidate of
`build_cmd`, else of `run_command`, becomes the effective filename (its
trailing path component); otherwise the trailing path component of `file`
is kept. -/
def spec_effective_file (file build_cmd run_command : Str) : Str :=
  let base := path_leaf file
  let ext := file_ext base
  if ext = [] then base
  else
    match (spec_file_candidates build_cmd ext).getLast? with
    | some t => path_leaf t
    | none =>
        match (spec_file_candidates run_command ext).getLast? with
        | some t => path_leaf t
        | none => base

/-- A filesystem path, as a list of components. -/
abbrev FPath := List Str

/-- The filesystem state the compiler acts on: regular files (path to
contents) and directories (path membership). -/
@[ext]
structure St where
  files : FPath → Option Str
  dirs : FPath → Bool

/-- `read_file_or_empty` from the source: a missing file reads as the
empty string. -/
def read_file_or_empty (s : St) (p : FPath) : Str := (s.files p).getD []

/-- `write_file_if_changed` from the source: skip the write when the
existing content is non-empty and equal to the new content, otherwise
write. -/
def write_file_if_changed (p : FPath) (content : Str) (s : St) : St :=
  let existing := read_file_or_empty s p
  if existing ≠ [] ∧ existing = content then s
  else { s with files := fun q => if q = p then some content else s.files q }

/-- `write_file` from the current source: with force, write
unconditionally; otherwise defer to `write_file_if_changed`. -/
def write_file (p : FPath) (content : Str) (force : Bool) (s : St) : St :=
  if force then
    { s with files := fun q => if q = p then some content else s.files q }
  else write_file_if_changed p content s

/-- `fs::create_directories`: mark every non-empty prefix of the path as
an existing directory. -/
def create_directories (p : FPath) (s : St) : St :=
  { s with dirs := fun q => if !q.isEmpty && q.isPrefixOf p then true else s.dirs q }

/-- Whether `q` is a regular file directly inside `dir` whose name matches
`target` case-insensitively; these are exactly the paths
`remove_case_insensitive_conflicts` deletes (the loop removes the
case-variants, and the final `remove_quiet` removes the exact name). -/
def conflict_path (dir : FPath) (target : Str) (q : FPath) : Bool :=
  q.take dir.length == dir &&
    match q.drop dir.length with
    | [name] => lower name == lower target
    | _ => false

/-- `remove_case_insensitive_conflicts` from the source: when the
directory exists, delete every file in it whose name matches `target`
case-insensitively (the exact name included). -/
def remove_case_insensitive_conflicts (dir : FPath) (target : Str) (s : St) : St :=
  if s.dirs dir then
    { s with files := fun q => if conflict_path dir target q then none else s.files q }
  else s

/-- `LangSpec` from the current source: the eight fields of one manifest
row. -/
structure LangSpec where
  slug : Str
  file : Str
  base_image : Str
  install_cmd : Str
  env_path : Str
  build_cmd : Str
  run_command : Str
  hello : Str
deriving DecidableEq

/-- Substring test, as `std::string::find` reports an occurrence: the
needle is a prefix of some suffix of the haystack. -/
def has_substring (hay needle : Str) : Bool :=
  if needle.isPrefixOf hay then true
  else
    match hay with
    | [] => false
    | _ :: rest => has_substring rest needle

/-- `icontains` from the source: case-insensitive substring test. -/
def icontains (hay needle : Str) : Bool :=
  has_substring (lower hay) (lower needle)

/-- One scan of `replace_all`: replace each non-overlapping occurrence of
`f` left to right, continuing after the replacement text. -/
def replace_all_aux (f t : Str) : Str → Str
  | [] => []
  | c :: rest =>
      if f.isPrefixOf (c :: rest) then t ++ replace_all_aux f t (rest.drop (f.length - 1))
      else c :: replace_all_aux f t rest
termination_by l => l.length
decreasing_by
  all_goals simp only [List.length_cons]
  · have := List.length_drop (f.length - 1) rest
    omega
  · omega

/-- `replace_all` from the source: no-op for an empty pattern. -/
def replace_all (s f t : Str) : Str :=
  if f.isEmpty then s else replace_all_aux f t s

/-- The replacement install command the emojicode fixup installs
(`apply_fixups` in the source), a verbatim heredoc recipe. -/
def emojicode_install : Str :=
  "<<".data ++ [squoteC] ++ "EOF".data ++ [squoteC] ++
  ("\nset -e\nexport DEBIAN_FRONTEND=noninteractive\napt-get update\n\n" ++
   "# Toolchain + deps\napt-get install -y --no-install-recommends \\\n" ++
   "  ca-certificates \\\n  build-essential \\\n  cmake \\\n  git \\\n" ++
   "  libffi-dev \\\n  libedit-dev \\\n  zlib1g-dev \\\n  clang-8 \\\n" ++
   "  llvm-8 \\\n  llvm-8-dev \\\n  llvm-8-tools\n\n" ++
   "rm -rf /var/lib/apt/lists/*\n\n" ++
   "# Ensure v8 tools are the defaults (only if the paths exist)\n" ++
   "if [ -x /usr/bin/llvm-config-8 ]; then\n" ++
   "  update-alternatives --install /usr/bin/llvm-config llvm-config /usr/bin/llvm-config-8 100 || true\n" ++
   "fi\n" ++
   "if [ -x /usr/bin/clang-8 ]; then\n" ++
   "  update-alternatives --install /usr/bin/clang clang /usr/bin/clang-8 100 || true\n" ++
   "fi\n" ++
   "if [ -x /usr/bin/clang++-8 ]; then\n" ++
   "  update-alternatives --install /usr/bin/clang++ clang++ /usr/bin/clang++-8 100 || true\n" ++
   "fi\n\n" ++
   "# Build emojicode\n" ++
   "git clone --depth=1 https://github.com/emojicode/emojicode.git /tmp/emojic\n" ++
   "mkdir -p /tmp/emojic/build\ncd /tmp/emojic/build\n\n" ++
   "LLVM_DIR=\"$(llvm-config --cmakedir 2>/dev/null || true)\"\n" ++
   "if [ -z \"$LLVM_DIR\" ]; then\n" ++
   "  LLVM_DIR=\"$(llvm-config --prefix)/lib/cmake/llvm\"\n" ++
   "fi\n\n" ++
   "cmake -DLLVM_DIR=\"$LLVM_DIR\" ..\nmake -j\"$(nproc)\"\nmake install\n" ++
   "rm -rf /tmp/emojic\nEOF").data

/-- `apply_fixups` from the current source: the cobol free-format flag
insertion, the emojicode environment replacement, and the julia PATH
nudge, in source order. -/
def apply_fixups (r : LangSpec) : LangSpec :=
  let r :=
    if r.slug = "cobol".data then
      if icontains r.build_cmd "cobc".data && !icontains r.build_cmd "-free".data then
        let b1 := replace_all r.build_cmd "cobc -".data "cobc -free -".data
        let b2 :=
          if "cobc ".data.isPrefixOf b1 && !icontains b1 "cobc -free".data then
            replace_all b1 "cobc ".data "cobc -free ".data
          else b1
        let b3 :=
          if !icontains b2 "-free".data then "cobc -free ".data ++ b2.drop 5
          else b2
        { r with build_cmd := b3 }
      else r
    else r
  let r :=
    if r.slug = "emojicode".data then
      { r with base_image := "ubuntu:20.04".data,
               env_path := "/usr/local/bin".data,
               install_cmd := emojicode_install }
    else r
  let r :=
    if r.env_path = [] ∧ "julia:".data.isPrefixOf r.base_image then
      { r with env_path := "/usr/local/julia/bin".data }
    else r
  r

/-- The header/positional configuration `main` builds before processing
rows: whether a header was sniffed, and the header's raw columns. -/
structure Cfg where
  has_header : Bool
  header_cols : List Str
deriving DecidableEq

/-- Lookup in the header map `h` of the source: keys are the lower-cased
trimmed column names (empty names are never stored, and on duplicates the
later column wins, as assignment into the map overwrites). -/
def header_lookup (cols : List Str) (name : Str) : Option Nat :=
  ((List.range cols.length).filter
      (fun i => !name.isEmpty && lower (trim (cols.getD i [])) == name)).getLast?

/-- The positional-fallback half of the field accessor `get`. -/
def get_fallback (cols : List Str) (fallback : Option Nat) : Str :=
  match fallback with
  | some j => if j < cols.length then cols.getD j [] else []
  | none => []

/-- The field accessor `get` from the source: with a header, a name found
in the header map and in range for this line wins; everything else falls
back to the fixed positional index when one is given and in range, and to
the empty string otherwise. -/
def get_field (cfg : Cfg) (cols : List Str) (name : Str) (fallback : Option Nat) : Str :=
  match (if cfg.has_header then header_lookup cfg.header_cols name else none) with
  | some i => if i < cols.length then cols.getD i [] else get_fallback cols fallback
  | none => get_fallback cols fallback

/-- The raw (trimmed, not yet unescaped) fields `process_line` extracts
from a data line. -/
def row_spec_raw (cfg : Cfg) (cols : List Str) : LangSpec where
  slug := trim (get_field cfg cols "slug".data (some 0))
  file := trim (get_field cfg cols "file".data (some 1))
  base_image := trim (get_field cfg cols "base_image".data (some 2))
  install_cmd := trim (get_field cfg cols "install_cmd".data none)
  env_path := trim (get_field cfg cols "env_path".data none)
  build_cmd := trim (get_field cfg cols "build_cmd".data (some 3))
  run_command := trim (get_field cfg cols "run_cmd".data (some 4))
  hello := get_field cfg cols "hello".data (some 5)

/-- The validation test of `process_line`: slug, file, base_image or
run_cmd empty after trimming. -/
def row_malformed (cfg : Cfg) (cols : List Str) : Bool :=
  let r := row_spec_raw cfg cols
  r.slug.isEmpty || r.file.isEmpty || r.base_image.isEmpty || r.run_command.isEmpty

/-- Unescape-then-BOM-strip, as `process_line` applies to each field. -/
def clean_field (s : Str) : Str := strip_utf8_bom (unescape s)

/-- The fully normalized row: each field unescaped and BOM-stripped, then
the fixups applied. -/
def row_spec (cfg : Cfg) (cols : List Str) : LangSpec :=
  let r := row_spec_raw cfg cols
  apply_fixups
    { slug := clean_field r.slug
      file := clean_field r.file
      base_image := clean_field r.base_image
      install_cmd := clean_field r.install_cmd
      env_path := clean_field r.env_path
      build_cmd := clean_field r.build_cmd
      run_command := clean_field r.run_command
      hello := clean_field r.hello }

/-- The fixed `.dockerignore` content. -/
def dockerignore_content : Str := ".DS_Store\n.git\n.gitignore\n".data

/-- The source-file content: the hello text with a newline appended when
missing. -/
def hello_content (r : LangSpec) : Str :=
  if ends_with_nl r.hello then r.hello else r.hello ++ [nlC]

/-- The Dockerfile text `process_line` composes in the current source
(heredoc-aware install step, optional ENV PATH, COPY, optional build RUN,
JSON-escaped exec-form CMD). -/
def dockerfile_content (r : LangSpec) (eff : Str) : Str :=
  "# syntax=docker/dockerfile:1\nFROM ".data ++ r.base_image ++
  "\nWORKDIR /app\n".data ++
  (if r.install_cmd ≠ [] then
    (let ti := trim r.install_cmd
     if "<<".data.isPrefixOf ti then "RUN ".data ++ ti ++ [nlC]
     else "RUN ".data ++ r.install_cmd ++ [nlC])
   else []) ++
  (if r.env_path ≠ [] then
    "ENV PATH=\"".data ++ r.env_path ++ ":$PATH\"\n".data
   else []) ++
  "COPY ".data ++ eff ++ " .\n".data ++
  (if r.build_cmd ≠ [] then "RUN ".data ++ r.build_cmd ++ [nlC] else []) ++
  "CMD [\"sh\", \"-c\", \"".data ++ json_escape r.run_command ++ "\"]\n".data

/-- The `run.sh` launcher text, a pure function of the slug. -/
def runsh_content (slug : Str) : Str :=
  "#!/usr/bin/env bash\nset -euo pipefail\nIMG=\"hello-".data ++ slug ++
  ("\"\nPLATFORM=\"$\x7bPOLYGLOT_PLATFORM:-\x7d\"\n" ++
   "if [ -n \"$PLATFORM\" ]; then\n" ++
   "  docker build --platform \"$PLATFORM\" -t \"$IMG\" .\n" ++
   "  docker run --rm --platform \"$PLATFORM\" \"$IMG\"\n" ++
   "else\n" ++
   "  docker build -t \"$IMG\" .\n" ++
   "  docker run --rm \"$IMG\"\n" ++
   "fi\n").data

/-- The root directory name of the artifact tree. -/
def languages_root : Str := "languages".data

/-- The filesystem effect of one valid row in the current source, in
source order: create the slug directory, write `.dockerignore` (equality
gated unless forced), clear case-insensitive conflicts, force-write the
source file, then write the Dockerfile and the launcher (equality gated
unless forced). -/
def row_step (r : LangSpec) (force : Bool) (s : St) : St :=
  let eff := effective_file_of r.file r.build_cmd r.run_command
  let dir : FPath := [languages_root, r.slug]
  write_file (dir ++ ["run.sh".data]) (runsh_content r.slug) force
    (write_file (dir ++ ["Dockerfile".data]) (dockerfile_content r eff) force
      (write_file (dir ++ [eff]) (hello_content r) true
        (remove_case_insensitive_conflicts dir eff
          (write_file (dir ++ [".dockerignore".data]) dockerignore_content force
            (create_directories dir s)))))

/-- `process_line` from the current source: skip blank lines, comment
lines and malformed rows without touching the filesystem; otherwise run
the row's artifact writes. -/
def process_line (cfg : Cfg) (force : Bool) (line : Str) (s : St) : St :=
  if trim line = [] then s
  else if (trim line).headD ' ' = '#' then s
  else if row_malformed cfg (split_tabs line) then s
  else row_step (row_spec cfg (split_tabs line)) force s

/-- The warning `process_line` prints to the error stream for a malformed
row (and for no other row). -/
def row_warning (cfg : Cfg) (line : Str) : Option Str :=
  if trim line = [] then none
  else if (trim line).headD ' ' = '#' then none
  else if row_malformed cfg (split_tabs line) then
    some ("Skipping malformed line: ".data ++ line)
  else none

/-- Header sniffing in `main`: only the literal first line of the manifest
is inspected, whatever it contains. -/
def manifest_has_header (lines : List Str) : Bool :=
  match lines with
  | [] => false
  | first :: _ => looks_like_header (split_tabs first)

/-- The configuration `main` builds from the manifest. -/
def manifest_cfg (lines : List Str) : Cfg :=
  match lines with
  | [] => { has_header := false, header_cols := [] }
  | first :: _ =>
      if looks_like_header (split_tabs first) then
        { has_header := true, header_cols := split_tabs first }
      else { has_header := false, header_cols := [] }

/-- The whole compiler run of `main` on the manifest's lines: create the
artifacts root, sniff the first line for a header, process the first line
as data when there is no header, then process the remaining lines. -/
def scaffold_main (lines : List Str) (force : Bool) (s : St) : St :=
  match lines with
  | [] => create_directories [languages_root] s
  | first :: rest =>
      let cfg := manifest_cfg (first :: rest)
      let s1 := create_directories [languages_root] s
      let s2 := if cfg.has_header then s1 else process_line cfg force first s1
      rest.foldl (fun st l => process_line cfg force l st) s2

/-- `write_file_if_needed` from the earlier generator revision
(src/tools/scaffold.cpp): without force, an existing file is never
rewritten, whatever its content; with force, always write. -/
def write_file_if_needed (p : FPath) (content : Str) (force : Bool) (s : St) : St :=
  if (s.files p).isSome ∧ force = false then s
  else { s with files := fun q => if q = p then some content else s.files q }

/-- `unescape` from the earlier revision: only backslash-n, backslash-t
and double-backslash are recognized. -/
def unescape_old : Str → Str
  | [] => []
  | [c] => [c]
  | c :: n :: rest =>
      if c = backslashC then
        if n = 'n' then nlC :: unescape_old rest
        else if n = 't' then tabC :: unescape_old rest
        else if n = backslashC then backslashC :: unescape_old rest
        else c :: unescape_old (n :: rest)
      else c :: unescape_old (n :: rest)

/-- The normalized row of the earlier revision: only the optional and
command fields are unescaped (slug, file and base_image stay raw), there
is no BOM stripping and no fixup table, and the julia PATH nudge is
applied inline. -/
def old_row_spec (cfg : Cfg) (cols : List Str) : LangSpec :=
  let r := row_spec_raw cfg cols
  let env := unescape_old r.env_path
  { slug := r.slug
    file := r.file
    base_image := r.base_image
    install_cmd := unescape_old r.install_cmd
    env_path :=
      if env = [] ∧ "julia:".data.isPrefixOf r.base_image then
        "/usr/local/julia/bin".data
      else env
    build_cmd := unescape_old r.build_cmd
    run_command := unescape_old r.run_command
    hello := unescape_old r.hello }

/-- The Dockerfile text of the earlier revision (no heredoc special case). -/
def old_dockerfile_content (r : LangSpec) (eff : Str) : Str :=
  "# syntax=docker/dockerfile:1\nFROM ".data ++ r.base_image ++
  "\nWORKDIR /app\n".data ++
  (if r.install_cmd ≠ [] then "RUN ".data ++ r.install_cmd ++ [nlC] else []) ++
  (if r.env_path ≠ [] then
    "ENV PATH=\"".data ++ r.env_path ++ ":$PATH\"\n".data
   else []) ++
  "COPY ".data ++ eff ++ " .\n".data ++
  (if r.build_cmd ≠ [] then "RUN ".data ++ r.build_cmd ++ [nlC] else []) ++
  "CMD [\"sh\", \"-c\", \"".data ++ json_escape r.run_command ++ "\"]\n".data

/-- The filesystem effect of one valid row in the earlier revision, in
source order; the existence-gated `write_file_if_needed` guards every
artifact except the source file, which is force-written after the
case-conflict sweep, with a newline appended unconditionally. -/
def old_row_step (r : LangSpec) (force : Bool) (s : St) : St :=
  let eff := effective_file_of r.file r.build_cmd r.run_command
  let dir : FPath := [languages_root, r.slug]
  write_file_if_needed (dir ++ ["run.sh".data]) (runsh_content r.slug) force
    (write_file_if_needed (dir ++ ["Dockerfile".data]) (old_dockerfile_content r eff) force
      (write_file_if_needed (dir ++ [eff]) (r.hello ++ [nlC]) true
        (remove_case_insensitive_conflicts dir eff
          (write_file_if_needed (dir ++ [".dockerignore".data]) dockerignore_content force
            (create_directories dir s)))))

/-- One entry the batch executor looks at: its directory name, whether its
launcher file exists and is executable (the shell test -x), and the exit
status its launcher would return. -/
structure RunEntry where
  name : Str
  launcher_runnable : Bool
  exit_code : Nat
deriving DecidableEq

/-- `matches_filter` from run_all.sh: no filters accepts everything,
otherwise exact name match. -/
def matches_filter (filters : List Str) (name : Str) : Bool :=
  filters.isEmpty || filters.any (fun f => f == name)

/-- The language list run_all.sh builds before the loop: directory
enumeration order, filtered. -/
def run_all_langs (filters : List Str) (entries : List RunEntry) : List RunEntry :=
  entries.filter (fun e => matches_filter filters e.name)

/-- The classification loop of run_all.sh: a non-runnable launcher is
appended to the skip list, a zero exit to the pass list, anything else to
the fail list. -/
def run_all_acc (langs : List RunEntry) : List Str × List Str × List Str :=
  langs.foldl
    (fun acc e =>
      if !e.launcher_runnable then (acc.1, acc.2.1, acc.2.2 ++ [e.name])
      else if e.exit_code == 0 then (acc.1 ++ [e.name], acc.2.1, acc.2.2)
      else (acc.1, acc.2.1 ++ [e.name], acc.2.2))
    ([], [], [])

/-- The pass list of a run. -/
def run_all_passes (filters : List Str) (entries : List RunEntry) : List Str :=
  (run_all_acc (run_all_langs filters entries)).1

/-- The fail list of a run. -/
def run_all_fails (filters : List Str) (entries : List RunEntry) : List Str :=
  (run_all_acc (run_all_langs filters entries)).2.1

/-- The skip list of a run. -/
def run_all_skips (filters : List Str) (entries : List RunEntry) : List Str :=
  (run_all_acc (run_all_langs filters entries)).2.2

/-- The final process exit status of run_all.sh: its last command tests
that the fail array is empty. -/
def run_all_exit (filters : List Str) (entries : List RunEntry) : Nat :=
  if (run_all_fails filters entries).isEmpty then 0 else 1

/-! ### Unescaping (claim C4) -/

lemma spec_unescape_cons_ne (n : Char) (rest : Str) (h : n ≠ backslashC) :
    spec_unescape (n :: rest) = n :: spec_unescape rest := by
  cases rest with
  | nil => rfl
  | cons m rest2 =>
      rw [spec_unescape, if_neg h]

/-- C4. Field unescaping: the compiler's `unescape` agrees with the
specification's left-to-right description on every input: each of the six
recognized two-byte escapes is replaced by its byte, and a backslash
followed by any other byte (or by nothing) stays literally in place. -/
theorem C4_unescape_matches_spec : ∀ s : Str, unescape s = spec_unescape s
  | [] => rfl
  | [c] => rfl
  | b :: n :: rest => by
      rw [unescape, spec_unescape]
      by_cases hb : b = backslashC
      · rw [if_pos hb, if_pos hb, esc_code]
        by_cases h1 : n = 'n'
        · simp [h1, C4_unescape_matches_spec rest]
        rw [if_neg h1, if_neg h1]
        by_cases h2 : n = 't'
        · simp [h2, C4_unescape_matches_spec rest]
        rw [if_neg h2, if_neg h2]
        by_cases h3 : n = 'r'
        · simp [h3, C4_unescape_matches_spec rest]
        rw [if_neg h3, if_neg h3]
        by_cases h4 : n = backslashC
        · simp [h4, C4_unescape_matches_spec rest]
        rw [if_neg h4, if_neg h4]
        by_cases h5 : n = dquoteC
        · simp [h5, C4_unescape_matches_spec rest]
        rw [if_neg h5, if_neg h5]
        by_cases h6 : n = squoteC
        · simp [h6, C4_unescape_matches_spec rest]
        rw [if_neg h6, if_neg h6]
        rw [C4_unescape_matches_spec (n :: rest), spec_unescape_cons_ne n rest h4, hb]
      · rw [if_neg hb, if_neg hb, C4_unescape_matches_spec (n :: rest)]

/-! ### JSON escaping round-trip (claim C5) -/

lemma hex_val_hex_digit_upper (n : Nat) (h : n < 16) :
    hex_val (hex_digit_upper n) = some n := by
  interval_cases n <;> decide

lemma json_unescape_cons_plain (c : Char) (rest : Str) (h1 : c ≠ backslashC)
    (h2 : c ≠ dquoteC) (h3 : ¬ c.toNat < 0x20) :
    json_unescape (c :: rest) = (json_unescape rest).map (fun t => c :: t) := by
  rw [json_unescape.eq_def]
  simp [h1, h2, h3]

lemma json_unescape_escape_char (c : Char) (rest : Str) :
    json_unescape (json_escape_char c ++ rest) = (json_unescape rest).map (fun t => c :: t) := by
  rw [json_escape_char]
  by_cases h1 : c = backslashC
  · subst h1
    rw [if_pos rfl]
    simp only [List.cons_append, List.nil_append]
    rw [json_unescape.eq_def]
    simp [show ¬ (backslashC = dquoteC) by decide]
  rw [if_neg h1]
  by_cases h2 : c = dquoteC
  · subst h2
    rw [if_pos rfl]
    simp only [List.cons_append, List.nil_append]
    rw [json_unescape.eq_def]
    simp
  rw [if_neg h2]
  by_cases h3 : c = nlC
  · subst h3
    rw [if_pos rfl]
    simp only [List.cons_append, List.nil_append]
    rw [json_unescape.eq_def]
    simp [show ¬ ('n' = dquoteC) by decide, show ¬ ('n' = backslashC) by decide,
          show ¬ ('n' = slashC) by decide, show ¬ ('n' = 'b') by decide,
          show ¬ ('n' = 'f') by decide]
  rw [if_neg h3]
  by_cases h4 : c = crC
  · subst h4
    rw [if_pos rfl]
    simp only [List.cons_append, List.nil_append]
    rw [json_unescape.eq_def]
    simp [show ¬ ('r' = dquoteC) by decide, show ¬ ('r' = backslashC) by decide,
          show ¬ ('r' = slashC) by decide, show ¬ ('r' = 'b') by decide,
          show ¬ ('r' = 'f') by decide, show ¬ ('r' = 'n') by decide]
  rw [if_neg h4]
  by_cases h5 : c = tabC
  · subst h5
    rw [if_pos rfl]
    simp only [List.cons_append, List.nil_append]
    rw [json_unescape.eq_def]
    simp [show ¬ ('t' = dquoteC) by decide, show ¬ ('t' = backslashC) by decide,
          show ¬ ('t' = slashC) by decide, show ¬ ('t' = 'b') by decide,
          show ¬ ('t' = 'f') by decide, show ¬ ('t' = 'n') by decide,
          show ¬ ('t' = 'r') by decide]
  rw [if_neg h5]
  by_cases h6 : c.toNat < 0x20
  · rw [if_pos h6]
    have hdiv : c.toNat / 16 < 16 := by omega
    have hmod : c.toNat % 16 < 16 := Nat.mod_lt _ (by omega)
    simp only [List.cons_append, List.nil_append]
    rw [json_unescape.eq_def]
    simp only [if_pos rfl,
          show ¬ ('u' = dquoteC) by decide, show ¬ ('u' = backslashC) by decide,
          show ¬ ('u' = slashC) by decide, show ¬ ('u' = 'b') by decide,
          show ¬ ('u' = 'f') by decide, show ¬ ('u' = 'n') by decide,
          show ¬ ('u' = 'r') by decide, show ¬ ('u' = 't') by decide,
          if_false, ite_false]
    simp only [show hex_val '0' = some 0 by decide,
               hex_val_hex_digit_upper _ hdiv, hex_val_hex_digit_upper _ hmod]
    have harith : ((0 * 16 + 0) * 16 + c.toNat / 16) * 16 + c.toNat % 16 = c.toNat := by
      omega
    simp only [harith]
    have harith2 : c.toNat / 16 * 16 + c.toNat % 16 = c.toNat := by omega
    simp [harith, harith2, Char.ofNat_toNat]
  · rw [if_neg h6]
    simp only [List.cons_append, List.nil_append]
    exact json_unescape_cons_plain c rest h1 h2 h6

lemma json_escape_char_printable (c d : Char) (h : d ∈ json_escape_char c) :
    0x20 ≤ d.toNat := by
  have hback : (0x20 : Nat) ≤ backslashC.toNat := by decide
  have hdig : ∀ n : Nat, 0x20 ≤ (hex_digit_upper n).toNat := by
    intro n
    rcases Nat.lt_or_ge n 16 with hn | hn
    · interval_cases n <;> decide
    · rw [hex_digit_upper, List.getD_eq_default _ _ (by simpa using hn)]
      decide
  rw [json_escape_char] at h
  by_cases h1 : c = backslashC
  · rw [if_pos h1] at h
    simp only [List.mem_cons, List.mem_singleton, List.not_mem_nil, or_false] at h
    rcases h with rfl | rfl <;> exact hback
  rw [if_neg h1] at h
  by_cases h2 : c = dquoteC
  · rw [if_pos h2] at h
    simp only [List.mem_cons, List.mem_singleton, List.not_mem_nil, or_false] at h
    rcases h with rfl | rfl <;> decide
  rw [if_neg h2] at h
  by_cases h3 : c = nlC
  · rw [if_pos h3] at h
    simp only [List.mem_cons, List.mem_singleton, List.not_mem_nil, or_false] at h
    rcases h with rfl | rfl <;> decide
  rw [if_neg h3] at h
  by_cases h4 : c = crC
  · rw [if_pos h4] at h
    simp only [List.mem_cons, List.mem_singleton, List.not_mem_nil, or_false] at h
    rcases h with rfl | rfl <;> decide
  rw [if_neg h4] at h
  by_cases h5 : c = tabC
  · rw [if_pos h5] at h
    simp only [List.mem_cons, List.mem_singleton, List.not_mem_nil, or_false] at h
    rcases h with rfl | rfl <;> decide
  rw [if_neg h5] at h
  by_cases h6 : c.toNat < 0x20
  · rw [if_pos h6] at h
    simp only [List.mem_cons, List.mem_singleton, List.not_mem_nil, or_false] at h
    rcases h with rfl | rfl | rfl | rfl | rfl | rfl
    · exact hback
    · decide
    · decide
    · decide
    · exact hdig _
    · exact hdig _
  · rw [if_neg h6] at h
    simp only [List.mem_singleton, List.mem_cons, List.not_mem_nil, or_false] at h
    subst h
    omega

/-- C5. JSON escaping of the run command round-trips: standard JSON
string-body unescaping applied to the compiler's `json_escape` output
succeeds (so the emitted CMD string literal is well-formed) and
reproduces the original command exactly; moreover the escaped text
contains no raw control byte. -/
theorem C5_json_escape_roundtrip (s : Str) :
    json_unescape (json_escape s) = some s ∧
      ∀ c ∈ json_escape s, 0x20 ≤ c.toNat := by
  constructor
  · induction s with
    | nil =>
        show json_unescape [] = some []
        rw [json_unescape.eq_def]
    | cons c rest ih =>
        rw [json_escape, json_unescape_escape_char, ih]
        rfl
  · induction s with
    | nil => intro c h; simp [json_escape] at h
    | cons c rest ih =>
        intro d hd
        rw [json_escape, List.mem_append] at hd
        rcases hd with hd | hd
        · exact json_escape_char_printable c d hd
        · exact ih d hd

/-! ### Idempotence machinery (claim C1)

Every filesystem action of a compiler run overwrites a region of the
state with values that depend only on the manifest, never on the previous
state; such actions are closed under composition and are idempotent. -/

/-- Overwrite the masked region of the files and dirs maps with fixed
values. -/
def st_override (fm : FPath → Bool) (fv : FPath → Option Str)
    (dm : FPath → Bool) (dv : FPath → Bool) (s : St) : St where
  files := fun q => if fm q then fv q else s.files q
  dirs := fun q => if dm q then dv q else s.dirs q

/-- A state transformer whose effect is a state-independent region
overwrite. -/
def IsOverride (g : St → St) : Prop :=
  ∃ fm fv dm dv, ∀ s, g s = st_override fm fv dm dv s

lemma isOverride_id : IsOverride (fun s => s) := by
  refine ⟨fun _ => false, fun _ => none, fun _ => false, fun _ => false, fun s => ?_⟩
  cases s
  simp [st_override]

lemma isOverride_comp {f g : St → St} (hf : IsOverride f) (hg : IsOverride g) :
    IsOverride (fun s => f (g s)) := by
  obtain ⟨am, av, bm, bv, hf⟩ := hf
  obtain ⟨cm, cv, dm, dv, hg⟩ := hg
  refine ⟨fun q => am q || cm q, fun q => if am q then av q else cv q,
          fun q => bm q || dm q, fun q => if bm q then bv q else dv q, fun s => ?_⟩
  show f (g s) = _
  rw [hg s, hf]
  apply St.ext
  · funext q
    by_cases ha : am q <;> by_cases hc : cm q <;> simp [st_override, ha, hc]
  · funext q
    by_cases hb : bm q <;> by_cases hd : dm q <;> simp [st_override, hb, hd]

lemma isOverride_self_comp {g : St → St} (h : IsOverride g) (s : St) :
    g (g s) = g s := by
  obtain ⟨fm, fv, dm, dv, h⟩ := h
  rw [h, h]
  apply St.ext
  · funext q
    by_cases hm : fm q <;> simp [st_override, hm]
  · funext q
    by_cases hm : dm q <;> simp [st_override, hm]

lemma isOverride_congr {f g : St → St} (h : ∀ s, f s = g s) (hg : IsOverride g) :
    IsOverride f := by
  obtain ⟨fm, fv, dm, dv, hg⟩ := hg
  exact ⟨fm, fv, dm, dv, fun s => (h s).trans (hg s)⟩

lemma isOverride_foldl {α : Type} (step : α → St → St)
    (h : ∀ a, IsOverride (step a)) (l : List α) :
    IsOverride (fun s => l.foldl (fun st a => step a st) s) := by
  induction l with
  | nil => exact isOverride_id
  | cons a l ih =>
      simp only [List.foldl_cons]
      exact isOverride_comp ih (h a)

lemma files_write_file_if_changed (p : FPath) (content : Str) (s : St) :
    write_file_if_changed p content s =
      { s with files := fun q => if q = p then some content else s.files q } := by
  rw [write_file_if_changed]
  split
  · next hcond =>
      obtain ⟨hne, heq⟩ := hcond
      have hp : s.files p = some content := by
        rw [read_file_or_empty] at hne heq
        cases hv : s.files p with
        | none =>
            rw [hv] at hne
            simp at hne
        | some v =>
            rw [hv] at heq
            simp only [Option.getD_some] at heq
            rw [heq]
      apply St.ext
      · funext q
        by_cases hq : q = p
        · subst hq; simp [hp]
        · simp [hq]
      · rfl
  · rfl

lemma isOverride_write_file (p : FPath) (content : Str) (force : Bool) :
    IsOverride (write_file p content force) := by
  refine ⟨fun q => q == p, fun _ => some content, fun _ => false, fun _ => false,
          fun s => ?_⟩
  have hgoal : write_file p content force s =
      { s with files := fun q => if q = p then some content else s.files q } := by
    rw [write_file]
    split
    · rfl
    · exact files_write_file_if_changed p content s
  rw [hgoal]
  apply St.ext
  · funext q
    by_cases hq : q = p <;> simp [st_override, hq]
  · funext q
    simp [st_override]

lemma isOverride_create_directories (p : FPath) :
    IsOverride (create_directories p) := by
  refine ⟨fun _ => false, fun _ => none,
          fun q => !q.isEmpty && q.isPrefixOf p, fun _ => true, fun s => ?_⟩
  rw [create_directories]
  apply St.ext
  · funext q
    simp [st_override]
  · rfl

/-- The unconditional variant of the conflict sweep, reached whenever the
directory exists. -/
def remove_conflicts_unconditional (dir : FPath) (target : Str) (s : St) : St :=
  { s with files := fun q => if conflict_path dir target q then none else s.files q }

lemma isOverride_remove_conflicts_unconditional (dir : FPath) (target : Str) :
    IsOverride (remove_conflicts_unconditional dir target) := by
  refine ⟨fun q => conflict_path dir target q, fun _ => none,
          fun _ => false, fun _ => false, fun s => ?_⟩
  rw [remove_conflicts_unconditional]
  apply St.ext
  · funext q
    by_cases hq : conflict_path dir target q <;> simp [st_override, hq]
  · funext q
    simp [st_override]

lemma dirs_write_file (p : FPath) (content : Str) (force : Bool) (s : St) (q : FPath) :
    (write_file p content force s).dirs q = s.dirs q := by
  rw [write_file]
  split
  · rfl
  · rw [files_write_file_if_changed]

lemma dirs_create_directories_self (r : LangSpec) (s : St) :
    (create_directories [languages_root, r.slug] s).dirs [languages_root, r.slug] = true := by
  rw [create_directories]
  simp [List.isPrefixOf_iff_prefix]

/-- On the states `row_step` reaches, the slug directory always exists, so
the conditional sweep coincides with the unconditional one. -/
lemma row_step_eq_unconditional (r : LangSpec) (force : Bool) (s : St) :
    row_step r force s =
      (let eff := effective_file_of r.file r.build_cmd r.run_command
       let dir : FPath := [languages_root, r.slug]
       write_file (dir ++ ["run.sh".data]) (runsh_content r.slug) force
         (write_file (dir ++ ["Dockerfile".data]) (dockerfile_content r eff) force
           (write_file (dir ++ [eff]) (hello_content r) true
             (remove_conflicts_unconditional dir eff
               (write_file (dir ++ [".dockerignore".data]) dockerignore_content force
                 (create_directories dir s)))))) := by
  rw [row_step]
  have hdir :
      (write_file ([languages_root, r.slug] ++ [".dockerignore".data])
          dockerignore_content force
          (create_directories [languages_root, r.slug] s)).dirs
        [languages_root, r.slug] = true := by
    rw [dirs_write_file]
    exact dirs_create_directories_self r s
  rw [remove_case_insensitive_conflicts, if_pos hdir]
  rfl

lemma isOverride_row_step (r : LangSpec) (force : Bool) :
    IsOverride (row_step r force) := by
  apply isOverride_congr (row_step_eq_unconditional r force)
  exact isOverride_comp (isOverride_write_file _ _ _)
    (isOverride_comp (isOverride_write_file _ _ _)
      (isOverride_comp (isOverride_write_file _ _ _)
        (isOverride_comp (isOverride_remove_conflicts_unconditional _ _)
          (isOverride_comp (isOverride_write_file _ _ _)
            (isOverride_create_directories _)))))

lemma isOverride_process_line (cfg : Cfg) (force : Bool) (line : Str) :
    IsOverride (process_line cfg force line) := by
  rw [show process_line cfg force line = fun s => process_line cfg force line s from rfl]
  by_cases h1 : trim line = []
  · apply isOverride_congr (g := fun s => s) _ isOverride_id
    intro s
    rw [process_line, if_pos h1]
  by_cases h2 : (trim line).headD ' ' = '#'
  · apply isOverride_congr (g := fun s => s) _ isOverride_id
    intro s
    rw [process_line, if_neg h1, if_pos h2]
  by_cases h3 : row_malformed cfg (split_tabs line)
  · apply isOverride_congr (g := fun s => s) _ isOverride_id
    intro s
    rw [process_line, if_neg h1, if_neg h2, if_pos h3]
  · apply isOverride_congr (g := row_step (row_spec cfg (split_tabs line)) force) _
      (isOverride_row_step _ _)
    intro s
    rw [process_line, if_neg h1, if_neg h2, if_neg h3]

lemma isOverride_scaffold_main (lines : List Str) (force : Bool) :
    IsOverride (scaffold_main lines force) := by
  cases lines with
  | nil =>
      apply isOverride_congr (g := create_directories [languages_root])
      · intro s; rfl
      · exact isOverride_create_directories _
  | cons first rest =>
      have hstep : ∀ s, scaffold_main (first :: rest) force s =
          rest.foldl
            (fun st l => process_line (manifest_cfg (first :: rest)) force l st)
            (if (manifest_cfg (first :: rest)).has_header then
              create_directories [languages_root] s
             else
              process_line (manifest_cfg (first :: rest)) force first
                (create_directories [languages_root] s)) := by
        intro s
        rfl
      apply isOverride_congr hstep
      apply isOverride_comp
        (isOverride_foldl _ (fun l => isOverride_process_line _ _ l) rest)
      by_cases hh : (manifest_cfg (first :: rest)).has_header
      · apply isOverride_congr (g := create_directories [languages_root])
        · intro s; rw [if_pos hh]
        · exact isOverride_create_directories _
      · apply isOverride_congr
          (g := fun s => process_line (manifest_cfg (first :: rest)) force first
            (create_directories [languages_root] s))
        · intro s; rw [if_neg hh]
        · exact isOverride_comp (isOverride_process_line _ _ _)
            (isOverride_create_directories _)

/-- C1. Idempotence of the manifest compiler: on any manifest and any
starting filesystem, running the compiler a second time without the force
flag reproduces exactly the filesystem left by the first run — every
generated artifact (the equality-gated `.dockerignore`, Dockerfile and
run.sh, and the unconditionally rewritten source file) holds exactly the
bytes it held after the first run. -/
theorem C1_idempotence (lines : List Str) (s : St) :
    scaffold_main lines false (scaffold_main lines false s) =
      scaffold_main lines false s :=
  isOverride_self_comp (isOverride_scaffold_main lines false) s

/-! ### Row validation (claim C6) -/

/-- C6. A data line (non-blank, not a comment) whose slug, file,
base_image or run_cmd is empty after trimming changes nothing: the
filesystem state (files and directories alike) is returned untouched, the
skip warning is emitted for exactly that line, and the surrounding
manifest processes as if the line were absent. -/
theorem C6_row_validation (cfg : Cfg) (force : Bool) (line : Str)
    (h1 : trim line ≠ [])
    (h2 : (trim line).headD ' ' ≠ '#')
    (h3 : row_malformed cfg (split_tabs line) = true) :
    (∀ s, process_line cfg force line s = s) ∧
    row_warning cfg line = some ("Skipping malformed line: ".data ++ line) ∧
    (∀ (pre post : List Str) (s : St),
      (pre ++ line :: post).foldl (fun st l => process_line cfg force l st) s =
        (pre ++ post).foldl (fun st l => process_line cfg force l st) s) := by
  have hid : ∀ s, process_line cfg force line s = s := by
    intro s
    rw [process_line, if_neg h1, if_neg h2, if_pos h3]
  refine ⟨hid, ?_, ?_⟩
  · rw [row_warning, if_neg h1, if_neg h2, if_pos h3]
  · intro pre post s
    rw [List.foldl_append, List.foldl_append, List.foldl_cons, hid]

/-- Witness for C6: a one-field line (its file field is missing, hence
empty) is skipped without touching an empty filesystem. -/
theorem C6_row_validation_witness :
    process_line { has_header := false, header_cols := [] } false "ghostlang".data
        { files := fun _ => none, dirs := fun _ => false } =
      { files := fun _ => none, dirs := fun _ => false } :=
  (C6_row_validation { has_header := false, header_cols := [] } false "ghostlang".data
      (by decide) (by decide) (by decide)).1
    { files := fun _ => none, dirs := fun _ => false }

/-! ### Header detection (claim C7) -/

lemma split_tabs_aux_ne_nil (cur : Str) (s : Str) : split_tabs_aux cur s ≠ [] := by
  induction s generalizing cur with
  | nil => simp [split_tabs_aux]
  | cons c rest ih =>
      rw [split_tabs_aux]
      by_cases h : c = tabC
      · simp [h]
      · simpa [h] using ih (c :: cur)

lemma split_tabs_ne_nil (s : Str) : split_tabs s ≠ [] := split_tabs_aux_ne_nil [] s

lemma get_fallback_eq (cols : List Str) (j : Nat) :
    get_fallback cols (some j) = cols.getD j [] := by
  rw [get_fallback]
  by_cases h : j < cols.length
  · rw [if_pos h]
  · rw [if_neg h, List.getD_eq_default _ _ (by omega)]

/-- The no-header configuration. -/
def no_header_cfg : Cfg := { has_header := false, header_cols := [] }

/-- C7 counterexample. The second manifest line below is a genuine header
row, yet because a comment line precedes it the compiler does not
recognize the manifest as having a header: header sniffing looks only at
the literal first line, contradicting the claim that the first
non-comment, non-blank line is examined. -/
theorem C7_counterexample :
    looks_like_header
        (split_tabs "slug\tfile\tbase_image\tbuild_cmd\trun_cmd\thello".data) = true ∧
      manifest_has_header
        ["# my languages".data,
         "slug\tfile\tbase_image\tbuild_cmd\trun_cmd\thello".data] = false := by
  constructor
  · decide
  · decide

/-- C7 amended. Header detection examines only the literal first line of
the manifest file: the manifest has a header exactly when that line's
first field, trimmed and compared case-insensitively, is the column name
slug; in that case data processing starts at the second line, otherwise
every line including the first is data, with fields read from the fixed
positions slug=0, file=1, base_image=2, build_cmd=3, run_cmd=4, hello=5
(a header preceded by a comment or blank line is not recognized). -/
theorem C7_amended (first : Str) (rest : List Str) (force : Bool) (s : St)
    (cols : List Str) :
    manifest_has_header (first :: rest) = looks_like_header (split_tabs first) ∧
    (manifest_cfg (first :: rest)).has_header = looks_like_header (split_tabs first) ∧
    looks_like_header (split_tabs first) =
      (lower (trim ((split_tabs first).getD 0 [])) == "slug".data) ∧
    scaffold_main (first :: rest) force s =
      rest.foldl (fun st l => process_line (manifest_cfg (first :: rest)) force l st)
        (if (manifest_cfg (first :: rest)).has_header then
          create_directories [languages_root] s
         else
          process_line (manifest_cfg (first :: rest)) force first
            (create_directories [languages_root] s)) ∧
    row_spec_raw no_header_cfg cols =
      { slug := trim (cols.getD 0 [])
        file := trim (cols.getD 1 [])
        base_image := trim (cols.getD 2 [])
        install_cmd := []
        env_path := []
        build_cmd := trim (cols.getD 3 [])
        run_command := trim (cols.getD 4 [])
        hello := cols.getD 5 [] } := by
  refine ⟨rfl, ?_, ?_, ?_, ?_⟩
  · rw [manifest_cfg]
    by_cases h : looks_like_header (split_tabs first)
    · rw [if_pos h, h]
    · rw [if_neg h]
      simp [h]
  · cases hsp : split_tabs first with
    | nil => exact absurd hsp (split_tabs_ne_nil first)
    | cons c0 cs => rw [looks_like_header]; rfl
  · rfl
  · rw [row_spec_raw]
    have hget : ∀ (name : Str) (j : Nat),
        get_field no_header_cfg cols name (some j) = cols.getD j [] := by
      intro name j
      rw [get_field]
      simp only [no_header_cfg, Bool.false_eq_true, if_false]
      exact get_fallback_eq cols j
    have hout : ∀ name : Str, get_field no_header_cfg cols name none = [] := by
      intro name
      rw [get_field]
      simp only [no_header_cfg, Bool.false_eq_true, if_false]
      rfl
    simp only [hget, hout]
    rfl

/-! ### Field addressing under a header (claim C8) -/

lemma getLast?_filter_range_some (n : Nat) (p : Nat → Bool) (i : Nat)
    (h : ((List.range n).filter p).getLast? = some i) :
    p i = true ∧ i < n ∧ ∀ j, i < j → j < n → p j = false := by
  induction n with
  | zero => simp [List.range_zero] at h
  | succ n ih =>
      rw [List.range_succ, List.filter_append] at h
      by_cases hp : p n
      · rw [List.filter_cons, if_pos hp, List.filter_nil, List.getLast?_concat] at h
        obtain rfl : n = i := by injection h
        exact ⟨hp, Nat.lt_succ_self n, fun j hj1 hj2 => by omega⟩
      · rw [List.filter_cons, if_neg hp, List.filter_nil, List.append_nil] at h
        obtain ⟨h1, h2, h3⟩ := ih h
        refine ⟨h1, by omega, fun j hj1 hj2 => ?_⟩
        rcases Nat.lt_or_ge j n with hj | hj
        · exact h3 j hj1 hj
        · have : j = n := by omega
          subst this
          simpa using hp

lemma getLast?_filter_range_none (n : Nat) (p : Nat → Bool)
    (h : ((List.range n).filter p).getLast? = none) :
    ∀ j, j < n → p j = false := by
  induction n with
  | zero => intro j hj; omega
  | succ n ih =>
      rw [List.range_succ, List.filter_append] at h
      by_cases hp : p n
      · rw [List.filter_cons, if_pos hp, List.filter_nil, List.getLast?_concat] at h
        cases h
      · rw [List.filter_cons, if_neg hp, List.filter_nil, List.append_nil] at h
        intro j hj
        rcases Nat.lt_or_ge j n with hjn | hjn
        · exact ih h j hjn
        · have : j = n := by omega
          subst this
          simpa using hp

lemma header_lookup_some (cols : List Str) (name : Str) (i : Nat)
    (h : header_lookup cols name = some i) :
    i < cols.length ∧ lower (trim (cols.getD i [])) = name ∧
      ∀ j, i < j → j < cols.length → lower (trim (cols.getD j [])) ≠ name := by
  obtain ⟨h1, h2, h3⟩ := getLast?_filter_range_some _ _ _ h
  simp only [Bool.and_eq_true, beq_iff_eq] at h1
  refine ⟨h2, h1.2, fun j hj1 hj2 hcontra => ?_⟩
  have := h3 j hj1 hj2
  simp only [Bool.and_eq_true, beq_iff_eq] at this
  rw [Bool.and_eq_false_iff] at this
  rcases this with hn | he
  · rw [h1.1] at hn
    cases hn
  · rw [beq_eq_false_iff_ne] at he
    exact he hcontra

lemma header_lookup_none (cols : List Str) (name : Str) (hname : ¬ name.isEmpty)
    (h : header_lookup cols name = none) :
    ∀ j, j < cols.length → lower (trim (cols.getD j [])) ≠ name := by
  intro j hj hcontra
  have := getLast?_filter_range_none _ _ h j hj
  rw [hcontra] at this
  simp [hname] at this

/-- The header and data line of the C8 scenario: the header declares no
build_cmd column, while the data line has six fields. -/
def c8_header_line : Str := "slug\tfile\tbase_image\trun_cmd\thello".data

/-- The configuration sniffed from that header. -/
def c8_cfg : Cfg := { has_header := true, header_cols := split_tabs c8_header_line }

/-- A data row under that header whose positional column 3 holds the run
command. -/
def c8_row : List Str :=
  split_tabs "python\thello.py\tpython:3\tpython hello.py\tprint hi".data

/-- C8 counterexample. Under a header that does not declare a build_cmd
column, the build_cmd field of a data line is not empty: the accessor
falls back to fixed position 3 and reads the run-command column,
contradicting the claim that a recognized field absent from the header is
the empty string and never read positionally. -/
theorem C8_counterexample :
    header_lookup c8_cfg.header_cols "build_cmd".data = none ∧
    (row_spec_raw c8_cfg c8_row).build_cmd = "python hello.py".data ∧
    (row_spec_raw c8_cfg c8_row).build_cmd ≠ [] := by
  refine ⟨by decide, by decide, by decide⟩

/-- C8 amended. With a header, a recognized field is located by its
column name when the name appears in the header (the last matching header
column wins) and that column index is within the line; otherwise — name
absent from the header, or the line too short — the accessor falls back
to the field's fixed positional index when it has one (slug=0, file=1,
base_image=2, build_cmd=3, run_cmd=4, hello=5), and only fields without a
positional index (install_cmd, env_path) come back empty. -/
theorem C8_amended (cfg : Cfg) (cols : List Str) (name : Str) (fb : Nat)
    (hh : cfg.has_header = true) :
    (∀ i, header_lookup cfg.header_cols name = some i → i < cols.length →
        get_field cfg cols name (some fb) = cols.getD i [] ∧
        get_field cfg cols name none = cols.getD i [] ∧
        lower (trim (cfg.header_cols.getD i [])) = name ∧
        ∀ j, i < j → j < cfg.header_cols.length →
          lower (trim (cfg.header_cols.getD j [])) ≠ name) ∧
    (header_lookup cfg.header_cols name = none →
        get_field cfg cols name (some fb) = cols.getD fb []) ∧
    (header_lookup cfg.header_cols name = none →
        get_field cfg cols name none = []) ∧
    row_spec_raw cfg cols =
      { slug := trim (get_field cfg cols "slug".data (some 0))
        file := trim (get_field cfg cols "file".data (some 1))
        base_image := trim (get_field cfg cols "base_image".data (some 2))
        install_cmd := trim (get_field cfg cols "install_cmd".data none)
        env_path := trim (get_field cfg cols "env_path".data none)
        build_cmd := trim (get_field cfg cols "build_cmd".data (some 3))
        run_command := trim (get_field cfg cols "run_cmd".data (some 4))
        hello := get_field cfg cols "hello".data (some 5) } := by
  refine ⟨fun i hi hlen => ?_, fun hnone => ?_, fun hnone => ?_, rfl⟩
  · obtain ⟨_, h2, h3⟩ := header_lookup_some _ _ _ hi
    refine ⟨?_, ?_, h2, h3⟩
    · rw [get_field, hh, if_pos rfl, hi]
      simp [hlen]
    · rw [get_field, hh, if_pos rfl, hi]
      simp [hlen]
  · rw [get_field, hh, if_pos rfl, hnone]
    exact get_fallback_eq cols fb
  · rw [get_field, hh, if_pos rfl, hnone]
    rfl

/-- Witness for C8 amended: under the C8 header, build_cmd (absent from
the header) is read from fixed position 3 of the data line, while run_cmd
is located by its header column name at index 3, not at its positional
index 4. -/
theorem C8_amended_witness :
    get_field c8_cfg c8_row "build_cmd".data (some 3) = "python hello.py".data ∧
    get_field c8_cfg c8_row "run_cmd".data (some 4) = "python hello.py".data ∧
    (row_spec_raw c8_cfg c8_row).run_command = "python hello.py".data := by
  refine ⟨?_, ?_, ?_⟩
  · have h := (C8_amended c8_cfg c8_row "build_cmd".data 3 (by decide)).2.1 (by decide)
    rw [h]
    decide
  · have h :=
      ((C8_amended c8_cfg c8_row "run_cmd".data 4 (by decide)).1 3 (by decide)
        (by decide)).1
    rw [h]
    decide
  · decide

/-! ### Filename resolution (claims C2 and C3) -/

lemma path_leaf_not_mem_slash (s : Str) : slashC ∉ path_leaf s := by
  intro h
  rw [path_leaf, List.mem_reverse] at h
  have := List.mem_takeWhile_imp h
  simp at this

lemma path_leaf_of_not_mem (y : Str) (h : slashC ∉ y) : path_leaf y = y := by
  rw [path_leaf]
  have hself : y.reverse.takeWhile (fun c => !(c == slashC)) = y.reverse := by
    rw [List.takeWhile_eq_self_iff]
    intro x hx
    rw [List.mem_reverse] at hx
    have : x ≠ slashC := fun hxx => h (hxx ▸ hx)
    simp [this]
  rw [hself, List.reverse_reverse]

lemma not_dotslash_of_not_mem (y : Str) (h : slashC ∉ y) :
    ¬ "./".data.isPrefixOf y := by
  intro hp
  rw [List.isPrefixOf_iff_prefix] at hp
  obtain ⟨t, ht⟩ := hp
  apply h
  rw [← ht]
  refine List.mem_append_left _ ?_
  decide

lemma normalize_eq_path_leaf (x : Str) : normalize_filename x = path_leaf x := by
  rw [normalize_filename, if_neg (not_dotslash_of_not_mem _ (path_leaf_not_mem_slash x))]

lemma normalize_not_mem_slash (tok : Str) : slashC ∉ normalize_filename tok := by
  rw [normalize_eq_path_leaf]
  exact path_leaf_not_mem_slash tok

lemma normalize_of_not_mem (y : Str) (h : slashC ∉ y) : normalize_filename y = y := by
  rw [normalize_eq_path_leaf]
  exact path_leaf_of_not_mem y h

lemma normalize_idem (x : Str) :
    normalize_filename (normalize_filename x) = normalize_filename x :=
  normalize_of_not_mem _ (normalize_not_mem_slash x)

lemma getLast?_cons_getD {α : Type} (a b : α) (l : List α) :
    ((a :: l).getLast?).getD b = (l.getLast?).getD a := by
  cases l with
  | nil => rfl
  | cons c cs =>
      rw [List.getLast?_cons_cons]
      have hs : (c :: cs).getLast?.isSome := List.getLast?_isSome.2 (by simp)
      obtain ⟨x, hx⟩ := Option.isSome_iff_exists.1 hs
      rw [hx]
      rfl

lemma foldl_last_match (g : Str → Str) (p : Str → Bool) (l : List Str) :
    ∀ acc : Str,
      l.foldl (fun last tok => if p (g tok) then g tok else last) acc =
        (((l.map g).filter p).getLast?).getD acc := by
  induction l with
  | nil => intro acc; rfl
  | cons x xs ih =>
      intro acc
      rw [List.foldl_cons, ih, List.map_cons, List.filter_cons]
      by_cases h : p (g x)
      · rw [if_pos h, if_pos h]
        exact (getLast?_cons_getD _ _ _).symm
      · rw [if_neg h, if_neg h]

lemma find_last_file_ref_empty_ext (cmd : Str) : find_last_file_ref cmd [] = [] := by
  rw [find_last_file_ref]
  simp

lemma normalize_filename_nil : normalize_filename [] = [] := by decide

lemma find_last_file_ref_eq (cmd ext : Str) (hext : ext ≠ []) :
    find_last_file_ref cmd ext = ((spec_file_candidates cmd ext).getLast?).getD [] := by
  rw [find_last_file_ref, spec_file_candidates]
  have hextb : ext.isEmpty = false := by
    cases ext with
    | nil => exact absurd rfl hext
    | cons c cs => rfl
  by_cases hc : cmd.isEmpty = true
  · rw [if_pos (by simp [hc])]
    have hnil : cmd = [] := List.isEmpty_iff.1 hc
    subst hnil
    rfl
  · rw [if_neg (by simp [hc, hextb])]
    exact foldl_last_match (fun tok => normalize_filename (strip_trailing_punct tok))
      (fun t => ends_with t ext) (shellish_split cmd) []

lemma spec_candidate_fixed (cmd ext t : Str) (ht : t ∈ spec_file_candidates cmd ext) :
    normalize_filename t = t ∧ slashC ∉ t ∧ ends_with t ext = true := by
  rw [spec_file_candidates, List.mem_filter] at ht
  obtain ⟨hmem, hp⟩ := ht
  rw [List.mem_map] at hmem
  obtain ⟨tok, _, rfl⟩ := hmem
  exact ⟨normalize_idem _, normalize_not_mem_slash _, hp⟩

lemma candidate_ne_nil (ext t : Str) (hext : ext ≠ []) (hp : ends_with t ext = true) :
    t ≠ [] := by
  rw [ends_with, List.isSuffixOf_iff_suffix] at hp
  have hlen := hp.length_le
  intro hnil
  subst hnil
  simp at hlen
  exact hext hlen

/-- C2. The effective-filename computation of the compiler coincides, on
every row, with the specification's description of the resolution policy:
the trailing path component of `file` supplies the extension; the last
matching token of build_cmd, else of run_cmd (tokenized respecting
quotes, punctuation-stripped, leaf-reduced), overrides the name; with no
match — in particular when the name has no extension — the trailing path
component of `file` is kept. -/
theorem C2_filename_resolution (file build_cmd run_command : Str) :
    effective_file_of file build_cmd run_command =
      spec_effective_file file build_cmd run_command := by
  by_cases hext : file_ext (path_leaf file) = []
  · simp only [effective_file_of, spec_effective_file, normalize_eq_path_leaf file, hext,
      find_last_file_ref_empty_ext, normalize_filename_nil, ne_eq, if_pos rfl]
    simp
  · simp only [effective_file_of, spec_effective_file, normalize_eq_path_leaf file,
      if_neg hext, find_last_file_ref_eq _ _ hext, ne_eq]
    cases hb : (spec_file_candidates build_cmd (file_ext (path_leaf file))).getLast? with
    | some t =>
        obtain ⟨hfix, hsl, hsuf⟩ :=
          spec_candidate_fixed _ _ _ (List.mem_of_mem_getLast? hb)
        have hne := candidate_ne_nil _ _ hext hsuf
        simp [hfix, hne, path_leaf_of_not_mem t hsl]
    | none =>
        simp only [Option.getD_none, normalize_filename_nil]
        cases hr : (spec_file_candidates run_command (file_ext (path_leaf file))).getLast? with
        | some t =>
            obtain ⟨hfix, hsl, hsuf⟩ :=
              spec_candidate_fixed _ _ _ (List.mem_of_mem_getLast? hr)
            have hne := candidate_ne_nil _ _ hext hsuf
            simp [hfix, hne, path_leaf_of_not_mem t hsl]
        | none => simp [normalize_filename_nil]

/-- C3 counterexample. On the row of the specification's example — file
field hello.txt, no build command, run command `run ./main.py` — the
effective generated filename stays hello.txt (main.py does not end in the
.txt extension), contradicting the claim that it is main.py. -/
theorem C3_counterexample :
    (row_spec no_header_cfg
        (split_tabs "demo\thello.txt\talpine:3\t\trun ./main.py\thi".data)).file =
        "hello.txt".data ∧
    effective_file_of "hello.txt".data [] "run ./main.py".data = "hello.txt".data ∧
    effective_file_of "hello.txt".data [] "run ./main.py".data ≠ "main.py".data := by
  refine ⟨by decide, by decide, by decide⟩

/-- C3 amended. The run-command override applies only to tokens ending in
the same extension as the `file` field: with file hello.txt and run_cmd
`run ./main.py` the effective filename stays hello.txt, while with file
hello.py (matching extension) the same run_cmd does make it main.py. -/
theorem C3_amended :
    effective_file_of "hello.txt".data [] "run ./main.py".data = "hello.txt".data ∧
    effective_file_of "hello.py".data [] "run ./main.py".data = "main.py".data := by
  refine ⟨by decide, by decide⟩

/-! ### Batch-executor exit status (claim C9) -/

lemma run_all_fold_spec (langs : List RunEntry) :
    ∀ acc : List Str × List Str × List Str,
      langs.foldl
        (fun acc e =>
          if !e.launcher_runnable then (acc.1, acc.2.1, acc.2.2 ++ [e.name])
          else if e.exit_code == 0 then (acc.1 ++ [e.name], acc.2.1, acc.2.2)
          else (acc.1, acc.2.1 ++ [e.name], acc.2.2)) acc =
      (acc.1 ++
        (langs.filter (fun e => e.launcher_runnable && e.exit_code == 0)).map
          (fun e => e.name),
       acc.2.1 ++
        (langs.filter (fun e => e.launcher_runnable && !(e.exit_code == 0))).map
          (fun e => e.name),
       acc.2.2 ++
        (langs.filter (fun e => !e.launcher_runnable)).map (fun e => e.name)) := by
  induction langs with
  | nil => intro acc; simp
  | cons e l ih =>
      intro acc
      rw [List.foldl_cons]
      by_cases hr : e.launcher_runnable
      · by_cases hz : (e.exit_code == 0) = true
        · rw [if_neg (by simp [hr]), if_pos hz, ih]
          simp [List.filter_cons, hr, hz]
        · rw [if_neg (by simp [hr]), if_neg hz, ih]
          simp [List.filter_cons, hr, hz]
      · rw [if_pos (by simp [hr]), ih]
        simp [List.filter_cons, hr]

/-- C9. Exit status of the batch executor: the final process status is
success exactly when the fail list is empty; the fail list consists
exactly of the included entries whose launcher is runnable and exits
non-zero, the skip list of the included entries whose launcher is absent
or not executable; and success is equivalent to every included runnable
entry exiting zero — skips, however many, never affect the status. -/
theorem C9_exit_status (filters : List Str) (entries : List RunEntry) :
    (run_all_exit filters entries = 0 ↔ run_all_fails filters entries = []) ∧
    run_all_fails filters entries =
      ((run_all_langs filters entries).filter
          (fun e => e.launcher_runnable && !(e.exit_code == 0))).map (fun e => e.name) ∧
    run_all_skips filters entries =
      ((run_all_langs filters entries).filter (fun e => !e.launcher_runnable)).map
        (fun e => e.name) ∧
    (run_all_exit filters entries = 0 ↔
      ∀ e ∈ run_all_langs filters entries,
        e.launcher_runnable = true → e.exit_code = 0) := by
  have hf := run_all_fold_spec (run_all_langs filters entries) ([], [], [])
  have hfails : run_all_fails filters entries =
      ((run_all_langs filters entries).filter
          (fun e => e.launcher_runnable && !(e.exit_code == 0))).map (fun e => e.name) := by
    rw [run_all_fails, run_all_acc, hf]
    simp
  have hskips : run_all_skips filters entries =
      ((run_all_langs filters entries).filter (fun e => !e.launcher_runnable)).map
        (fun e => e.name) := by
    rw [run_all_skips, run_all_acc, hf]
    simp
  have hexit : run_all_exit filters entries = 0 ↔ run_all_fails filters entries = [] := by
    rw [run_all_exit]
    by_cases h : (run_all_fails filters entries).isEmpty = true
    · simp [h, List.isEmpty_iff.1 h]
    · rw [if_neg h]
      constructor
      · intro h10; omega
      · intro hnil; exact absurd (List.isEmpty_iff.2 hnil) h
  refine ⟨hexit, hfails, hskips, ?_⟩
  rw [hexit, hfails]
  constructor
  · intro hnil e hmem hr
    by_contra hz
    have hmf : e ∈ (run_all_langs filters entries).filter
        (fun e => e.launcher_runnable && !(e.exit_code == 0)) :=
      List.mem_filter.2 ⟨hmem, by simp [hr, hz]⟩
    have : e.name ∈ ((run_all_langs filters entries).filter
        (fun e => e.launcher_runnable && !(e.exit_code == 0))).map (fun e => e.name) :=
      List.mem_map_of_mem _ hmf
    rw [hnil] at this
    simp at this
  · intro hall
    have hfe : (run_all_langs filters entries).filter
        (fun e => e.launcher_runnable && !(e.exit_code == 0)) = [] := by
      rw [List.filter_eq_nil_iff]
      intro e hmem
      simp only [Bool.and_eq_true, Bool.not_eq_true', beq_eq_false_iff_ne, ne_eq, not_and]
      intro hr hz
      exact hz (hall e hmem hr)
    rw [hfe]
    rfl

/-! ### The earlier generator revision never rewrites existing artifacts
(claim C10) -/

lemma write_file_if_needed_skip (p : FPath) (content : Str) (s : St)
    (h : (s.files p).isSome = true) :
    write_file_if_needed p content false s = s := by
  rw [write_file_if_needed, if_pos ⟨h, rfl⟩]

lemma write_file_if_needed_force_files (p : FPath) (content : Str) (s : St) (q : FPath) :
    (write_file_if_needed p content true s).files q =
      if q = p then some content else s.files q := by
  rw [write_file_if_needed, if_neg (by simp)]

lemma append_singleton_inj (dir : FPath) (x y : Str) :
    dir ++ [x] = dir ++ [y] ↔ x = y := by
  constructor
  · intro h
    have := List.append_cancel_left h
    simpa using this
  · intro h
    rw [h]

lemma conflict_path_append (dir : FPath) (target x : Str) :
    conflict_path dir target (dir ++ [x]) = (lower x == lower target) := by
  rw [conflict_path, List.take_left, List.drop_left]
  simp

/-- C10. In the earlier generator revision, without the force flag an
existing file is never rewritten: `write_file_if_needed` returns the
state untouched whenever the target exists, whatever its content; hence
on a row whose source filename does not case-collide with the artifact
names, a processing pass leaves the existing `.dockerignore`, Dockerfile
and run.sh bytes exactly as found, while the per-entry source file is
unconditionally rewritten to the hello text plus a newline. -/
theorem C10_stale_artifacts (p : FPath) (content : Str) (s : St)
    (r : LangSpec) (t : St) (a b c : Str)
    (hp : (s.files p).isSome = true)
    (hia : t.files ([languages_root, r.slug] ++ [".dockerignore".data]) = some a)
    (hdb : t.files ([languages_root, r.slug] ++ ["Dockerfile".data]) = some b)
    (hrc : t.files ([languages_root, r.slug] ++ ["run.sh".data]) = some c)
    (hni : lower (effective_file_of r.file r.build_cmd r.run_command) ≠
      lower ".dockerignore".data)
    (hnd : lower (effective_file_of r.file r.build_cmd r.run_command) ≠
      lower "Dockerfile".data)
    (hnr : lower (effective_file_of r.file r.build_cmd r.run_command) ≠
      lower "run.sh".data) :
    write_file_if_needed p content false s = s ∧
    (old_row_step r false t).files ([languages_root, r.slug] ++ [".dockerignore".data]) =
      some a ∧
    (old_row_step r false t).files ([languages_root, r.slug] ++ ["Dockerfile".data]) =
      some b ∧
    (old_row_step r false t).files ([languages_root, r.slug] ++ ["run.sh".data]) =
      some c ∧
    (old_row_step r false t).files
        ([languages_root, r.slug] ++ [effective_file_of r.file r.build_cmd r.run_command]) =
      some (r.hello ++ [nlC]) := by
  refine ⟨write_file_if_needed_skip p content s hp, ?_⟩
  set eff : Str := effective_file_of r.file r.build_cmd r.run_command with heff
  set dir : FPath := [languages_root, r.slug] with hdir
  have hcreate_dirs : (create_directories dir t).dirs dir = true := by
    rw [create_directories]
    simp [hdir, List.isPrefixOf_iff_prefix]
  have hcreate_files : (create_directories dir t).files = t.files := rfl
  have hskip_ign :
      write_file_if_needed (dir ++ [".dockerignore".data]) dockerignore_content false
        (create_directories dir t) = create_directories dir t := by
    apply write_file_if_needed_skip
    rw [hcreate_files, hia]
    rfl
  have hZ : ∀ x : Str,
      (remove_case_insensitive_conflicts dir eff
        (write_file_if_needed (dir ++ [".dockerignore".data]) dockerignore_content false
          (create_directories dir t))).files (dir ++ [x]) =
      if lower x == lower eff then none else t.files (dir ++ [x]) := by
    intro x
    rw [hskip_ign, remove_case_insensitive_conflicts, if_pos hcreate_dirs]
    show (if conflict_path dir eff (dir ++ [x]) then none
          else (create_directories dir t).files (dir ++ [x])) = _
    rw [conflict_path_append, hcreate_files]
  have hY : ∀ x : Str,
      (write_file_if_needed (dir ++ [eff]) (r.hello ++ [nlC]) true
        (remove_case_insensitive_conflicts dir eff
          (write_file_if_needed (dir ++ [".dockerignore".data]) dockerignore_content false
            (create_directories dir t)))).files (dir ++ [x]) =
      if x = eff then some (r.hello ++ [nlC])
      else if lower x == lower eff then none else t.files (dir ++ [x]) := by
    intro x
    rw [write_file_if_needed_force_files]
    by_cases hx : x = eff
    · rw [if_pos hx, if_pos ((append_singleton_inj dir x eff).2 hx)]
    · rw [if_neg hx, if_neg (fun hq => hx ((append_singleton_inj dir x eff).1 hq)), hZ]
  have hne_of_lower : ∀ x : Str, lower eff ≠ lower x → x ≠ eff := by
    intro x hl hx
    exact hl (by rw [hx])
  have hYign : (write_file_if_needed (dir ++ [eff]) (r.hello ++ [nlC]) true
      (remove_case_insensitive_conflicts dir eff
        (write_file_if_needed (dir ++ [".dockerignore".data]) dockerignore_content false
          (create_directories dir t)))).files (dir ++ [".dockerignore".data]) = some a := by
    rw [hY, if_neg (hne_of_lower _ hni),
        if_neg (by simp only [beq_iff_eq]; exact fun hq => hni hq.symm), hia]
  have hYdoc : (write_file_if_needed (dir ++ [eff]) (r.hello ++ [nlC]) true
      (remove_case_insensitive_conflicts dir eff
        (write_file_if_needed (dir ++ [".dockerignore".data]) dockerignore_content false
          (create_directories dir t)))).files (dir ++ ["Dockerfile".data]) = some b := by
    rw [hY, if_neg (hne_of_lower _ hnd),
        if_neg (by simp only [beq_iff_eq]; exact fun hq => hnd hq.symm), hdb]
  have hYrun : (write_file_if_needed (dir ++ [eff]) (r.hello ++ [nlC]) true
      (remove_case_insensitive_conflicts dir eff
        (write_file_if_needed (dir ++ [".dockerignore".data]) dockerignore_content false
          (create_directories dir t)))).files (dir ++ ["run.sh".data]) = some c := by
    rw [hY, if_neg (hne_of_lower _ hnr),
        if_neg (by simp only [beq_iff_eq]; exact fun hq => hnr hq.symm), hrc]
  have hYsrc : (write_file_if_needed (dir ++ [eff]) (r.hello ++ [nlC]) true
      (remove_case_insensitive_conflicts dir eff
        (write_file_if_needed (dir ++ [".dockerignore".data]) dockerignore_content false
          (create_directories dir t)))).files (dir ++ [eff]) = some (r.hello ++ [nlC]) := by
    rw [hY, if_pos rfl]
  have hskip_doc :
      write_file_if_needed (dir ++ ["Dockerfile".data]) (old_dockerfile_content r eff) false
        (write_file_if_needed (dir ++ [eff]) (r.hello ++ [nlC]) true
          (remove_case_insensitive_conflicts dir eff
            (write_file_if_needed (dir ++ [".dockerignore".data]) dockerignore_content false
              (create_directories dir t)))) =
      write_file_if_needed (dir ++ [eff]) (r.hello ++ [nlC]) true
        (remove_case_insensitive_conflicts dir eff
          (write_file_if_needed (dir ++ [".dockerignore".data]) dockerignore_content false
            (create_directories dir t))) := by
    apply write_file_if_needed_skip
    rw [hYdoc]
    rfl
  have hkey : old_row_step r false t =
      write_file_if_needed (dir ++ ["run.sh".data]) (runsh_content r.slug) false
        (write_file_if_needed (dir ++ ["Dockerfile".data]) (old_dockerfile_content r eff) false
          (write_file_if_needed (dir ++ [eff]) (r.hello ++ [nlC]) true
            (remove_case_insensitive_conflicts dir eff
              (write_file_if_needed (dir ++ [".dockerignore".data]) dockerignore_content false
                (create_directories dir t))))) := rfl
  have hskip_run :
      old_row_step r false t =
      write_file_if_needed (dir ++ [eff]) (r.hello ++ [nlC]) true
        (remove_case_insensitive_conflicts dir eff
          (write_file_if_needed (dir ++ [".dockerignore".data]) dockerignore_content false
            (create_directories dir t))) := by
    rw [hkey, hskip_doc]
    apply write_file_if_needed_skip
    rw [hYrun]
    rfl
  rw [hskip_run]
  exact ⟨hYign, hYdoc, hYrun, hYsrc⟩

/-- The concrete row used to witness C10. -/
def c10_row : LangSpec :=
  { slug := "python".data
    file := "hello.py".data
    base_image := "python:3".data
    install_cmd := []
    env_path := []
    build_cmd := []
    run_command := "python hello.py".data
    hello := "print 1".data }

/-- The pre-existing filesystem used to witness C10: stale artifact bytes
for the python entry. -/
def c10_state : St :=
  { files := fun q =>
      if q = ["languages".data, "python".data, ".dockerignore".data] then
        some "OLD-IGNORE".data
      else if q = ["languages".data, "python".data, "Dockerfile".data] then
        some "OLD-DOCKER".data
      else if q = ["languages".data, "python".data, "run.sh".data] then
        some "OLD-RUN".data
      else none,
    dirs := fun _ => false }

/-- Witness for C10: on the concrete python row over the stale state, the
three artifacts keep their old bytes and the source file is rewritten. -/
theorem C10_stale_artifacts_witness :
    (old_row_step c10_row false c10_state).files
        ([languages_root, c10_row.slug] ++ [".dockerignore".data]) =
      some "OLD-IGNORE".data ∧
    (old_row_step c10_row false c10_state).files
        ([languages_root, c10_row.slug] ++ ["Dockerfile".data]) =
      some "OLD-DOCKER".data ∧
    (old_row_step c10_row false c10_state).files
        ([languages_root, c10_row.slug] ++ ["run.sh".data]) =
      some "OLD-RUN".data ∧
    (old_row_step c10_row false c10_state).files
        ([languages_root, c10_row.slug] ++
          [effective_file_of c10_row.file c10_row.build_cmd c10_row.run_command]) =
      some (c10_row.hello ++ [nlC]) :=
  (C10_stale_artifacts ["languages".data, "python".data, "Dockerfile".data] "X".data
      c10_state c10_row c10_state "OLD-IGNORE".data "OLD-DOCKER".data "OLD-RUN".data
      (by decide) (by decide) (by decide) (by decide)
      (by decide) (by decide) (by decide)).2

end Scaffold
